import Mathlib

/-!
# aws-waf-log-extractor: `pkg/lambda/handler.go`

A shallow embedding of the Firehose transformation handler and the properties of its
classification-and-fanout logic.

Modelling conventions.

* A Go `string` received from the invocation JSON is a Lean `String`; `[]byte(s)` is
  `stringBytes s`, the UTF-8 octets of `s`.
* A Go `[]byte` is a `List Nat` of octets.
* A pointer `*T` is an `Option T`, `nil` being `none`: the event `ev *Event` handed to the
  handler is an `Option Event` and its `Records []*Record` a `List (Option Record)`. Reading
  a field through a `nil` pointer is the run-time panic `GoPanic.nilDereference`, so
  `extractRecords` and `Do` return an `Except GoPanic`. The handler itself is one built by
  `NewHandler`: its receiver and its client are present.
* The two standard-library functions the handler calls (`base64.StdEncoding.DecodeString`
  and `json.Unmarshal` into a `Data`) are the fields of a `Lib`, so that the handler's
  properties are proved for every behaviour of the library; `goLib` is a model of the Go
  standard library, used to run the handler on concrete payloads.
* The Firehose client is a state-passing function on an arbitrary state; the requests the
  handler issues and the entries it logs are recorded next to the returned event.
-/

set_option autoImplicit false
set_option maxRecDepth 100000

/-- Go `[]byte`. -/
abbrev Bytes := List Nat

/-- UTF-8 encoding of one code point. -/
def utf8EncodeNat (c : Nat) : Bytes :=
  if c < 0x80 then [c]
  else if c < 0x800 then [0xC0 + c / 0x40, 0x80 + c % 0x40]
  else if c < 0x10000 then [0xE0 + c / 0x1000, 0x80 + c / 0x40 % 0x40, 0x80 + c % 0x40]
  else [0xF0 + c / 0x40000, 0x80 + c / 0x1000 % 0x40, 0x80 + c / 0x40 % 0x40, 0x80 + c % 0x40]

/-- Go `[]byte(s)`: the octets of a string. -/
def stringBytes (s : String) : Bytes :=
  s.data.flatMap (fun c => utf8EncodeNat c.toNat)

/-- A Go `error` value; messages and offsets are not modelled. -/
inductive GoError where
  /-- The `base64.CorruptInputError`. -/
  | corruptInput
  /-- The `*json.SyntaxError`. -/
  | jsonSyntax
  /-- The `*json.UnmarshalTypeError`. -/
  | jsonUnmarshalType
  /-- An error returned by the delivery client. -/
  | delivery (msg : String)
  deriving DecidableEq, Repr

/-- A Go run-time panic. -/
inductive GoPanic where
  /-- The `invalid memory address or nil pointer dereference` run-time error. -/
  | nilDereference
  deriving DecidableEq, Repr

/-- A JSON value decoded into a Go `interface{}`. Numbers keep their literal text. -/
inductive JSONValue where
  | null
  | bool (b : Bool)
  | number (lit : Bytes)
  | string (s : String)
  | array (xs : List JSONValue)
  | object (kvs : List (String × JSONValue))
  deriving Repr

/-! ## A model of `encoding/base64` -/

namespace base64

/-- The decode map of the standard alphabet: the 6-bit value of an octet that has one. -/
def decodeMap (c : Nat) : Option Nat :=
  if 65 ≤ c ∧ c ≤ 90 then some (c - 65)
  else if 97 ≤ c ∧ c ≤ 122 then some (c - 71)
  else if 48 ≤ c ∧ c ≤ 57 then some (c + 4)
  else if c = 43 then some 62
  else if c = 47 then some 63
  else none

/-- The padding character `=`. -/
def padChar : Nat := 61

/-- Decoding of a newline-free input, one quantum of four characters at a time. A padded
quantum (`xx==` or `xxx=`) has to end the input; the unused low bits of its last character
are not checked (the encoding is not strict). -/
def decodeQuanta : Bytes → Except GoError Bytes
  | [] => .ok []
  | a :: b :: c :: d :: rest =>
    match decodeMap a, decodeMap b with
    | some x, some y =>
      if c = padChar then
        if d = padChar ∧ rest = [] then .ok [x * 4 + y / 16] else .error .corruptInput
      else
        match decodeMap c with
        | none => .error .corruptInput
        | some z =>
          if d = padChar then
            if rest = [] then .ok [x * 4 + y / 16, y % 16 * 16 + z / 4]
            else .error .corruptInput
          else
            match decodeMap d with
            | none => .error .corruptInput
            | some w =>
              match decodeQuanta rest with
              | .error e => .error e
              | .ok out =>
                .ok ((x * 4 + y / 16) :: (y % 16 * 16 + z / 4) :: (z % 4 * 64 + w) :: out)
    | _, _ => .error .corruptInput
  | _ => .error .corruptInput

/-- Go `base64.StdEncoding.DecodeString`: `\r` and `\n` are skipped wherever they stand. -/
def DecodeString (s : String) : Except GoError Bytes :=
  decodeQuanta ((stringBytes s).filter (fun c => c ≠ 10 ∧ c ≠ 13))

end base64

/-! ## A model of the `encoding/json` scanner -/

namespace json

/-- An open array or object on the scanner's parse stack, with what it holds so far
(latest first) and, for an object, the key last read. -/
inductive Frame where
  | arr (elems : List JSONValue)
  | obj (fields : List (String × JSONValue)) (key : String)

/-- Where the scanner stands inside a number literal. -/
inductive NumState where
  | neg | zero | int | dot | dot0 | exp | expSign | exp0
  deriving DecidableEq, Repr

/-- The scanner's step. -/
inductive Mode where
  | beginValue
  | beginValueOrEmpty
  | beginString
  | beginStringOrEmpty
  | endKey
  | endValue
  | endTop (v : JSONValue)
  | inString (isKey : Bool) (raw : Bytes)
  | inStringEsc (isKey : Bool) (raw : Bytes)
  | inStringEscU (isKey : Bool) (raw : Bytes) (left : Nat)
  | inNumber (st : NumState) (lit : Bytes)
  | inLiteral (rest : Bytes) (v : JSONValue)

/-- The scanner: its step and its parse stack. -/
structure Scanner where
  step : Mode
  parseState : List Frame

/-- Go `maxNestingDepth`. -/
def maxNestingDepth : Nat := 10000

def isSpace (c : Nat) : Bool := c = 32 || c = 9 || c = 13 || c = 10

def isDigit (c : Nat) : Bool := 48 ≤ c && c ≤ 57

/-- The value of a hexadecimal digit. -/
def hexVal (c : Nat) : Option Nat :=
  if 48 ≤ c ∧ c ≤ 57 then some (c - 48)
  else if 97 ≤ c ∧ c ≤ 102 then some (c - 87)
  else if 65 ≤ c ∧ c ≤ 70 then some (c - 55)
  else none

/-- Go `getu4`: the code unit of a leading `\uXXXX`. -/
def getu4 : Bytes → Option Nat
  | 92 :: 117 :: a :: b :: c :: d :: _ =>
    match hexVal a, hexVal b, hexVal c, hexVal d with
    | some x, some y, some z, some w => some (((x * 16 + y) * 16 + z) * 16 + w)
    | _, _, _, _ => none
  | _ => none

/-- What `unquote` has read: a raw octet of the literal, or the code unit of an escape. -/
inductive Piece where
  | byte (b : Nat)
  | rune (r : Nat)
  deriving DecidableEq, Repr

/-- The escapes of a string literal, resolved; `hi` is a high surrogate read from the
preceding `\uXXXX` and waiting for its low half. An unpaired surrogate is U+FFFD. -/
def unescape : Option Nat → Bytes → List Piece
  | none, [] => []
  | some _, [] => [.rune 0xFFFD]
  | hi, 92 :: 117 :: a :: b :: c :: d :: rest =>
    match getu4 [92, 117, a, b, c, d], hi with
    | none, none => .rune 0xFFFD :: unescape none rest
    | none, some _ => .rune 0xFFFD :: .rune 0xFFFD :: unescape none rest
    | some r, some h =>
      if 0xDC00 ≤ r ∧ r < 0xE000 then
        .rune ((h - 0xD800) * 0x400 + (r - 0xDC00) + 0x10000) :: unescape none rest
      else if 0xD800 ≤ r ∧ r < 0xDC00 then .rune 0xFFFD :: unescape (some r) rest
      else .rune 0xFFFD :: .rune r :: unescape none rest
    | some r, none =>
      if 0xD800 ≤ r ∧ r < 0xDC00 then unescape (some r) rest
      else if 0xDC00 ≤ r ∧ r < 0xE000 then .rune 0xFFFD :: unescape none rest
      else .rune r :: unescape none rest
  | hi, 92 :: e :: rest =>
    let r :=
      if e = 98 then 8 else if e = 102 then 12 else if e = 110 then 10
      else if e = 114 then 13 else if e = 116 then 9 else e
    match hi with
    | none => .rune r :: unescape none rest
    | some _ => .rune 0xFFFD :: .rune r :: unescape none rest
  | none, c :: rest => .byte c :: unescape none rest
  | some _, c :: rest => .rune 0xFFFD :: .byte c :: unescape none rest

/-- The state of `utf8.DecodeRune` inside a multi-byte sequence: continuation octets still
expected, bits read, octets read, and the range accepted for the next octet. -/
structure Utf8State where
  need : Nat
  acc : Nat
  seen : Nat
  lo : Nat
  hi : Nat

/-- The first octet of a multi-byte sequence, with the accept range of its second octet. -/
def utf8Start (c : Nat) : Option Utf8State :=
  if 0xC2 ≤ c ∧ c ≤ 0xDF then some ⟨1, c % 32, 1, 0x80, 0xBF⟩
  else if c = 0xE0 then some ⟨2, c % 16, 1, 0xA0, 0xBF⟩
  else if c = 0xED then some ⟨2, c % 16, 1, 0x80, 0x9F⟩
  else if 0xE1 ≤ c ∧ c ≤ 0xEF then some ⟨2, c % 16, 1, 0x80, 0xBF⟩
  else if c = 0xF0 then some ⟨3, c % 8, 1, 0x90, 0xBF⟩
  else if c = 0xF4 then some ⟨3, c % 8, 1, 0x80, 0x8F⟩
  else if 0xF1 ≤ c ∧ c ≤ 0xF3 then some ⟨3, c % 8, 1, 0x80, 0xBF⟩
  else none

/-- An octet read outside a multi-byte sequence: the code points it yields and the
sequence it opens. -/
def utf8First (c : Nat) : List Nat × Option Utf8State :=
  if c < 0x80 then ([c], none)
  else match utf8Start c with
    | some st => ([], some st)
    | none => ([0xFFFD], none)

/-- The code points of the pieces: octets are decoded as UTF-8, each octet of an invalid
sequence giving U+FFFD. -/
def decodePieces : Option Utf8State → List Piece → List Nat
  | none, [] => []
  | some st, [] => List.replicate st.seen 0xFFFD
  | none, .rune r :: rest => r :: decodePieces none rest
  | some st, .rune r :: rest => List.replicate st.seen 0xFFFD ++ r :: decodePieces none rest
  | none, .byte c :: rest => (utf8First c).1 ++ decodePieces (utf8First c).2 rest
  | some st, .byte c :: rest =>
    if st.lo ≤ c ∧ c ≤ st.hi then
      if st.need = 1 then (st.acc * 64 + c % 64) :: decodePieces none rest
      else decodePieces (some ⟨st.need - 1, st.acc * 64 + c % 64, st.seen + 1, 0x80, 0xBF⟩) rest
    else
      List.replicate st.seen 0xFFFD ++ (utf8First c).1 ++ decodePieces (utf8First c).2 rest

/-- Go `unquote`, on the octets between the quotes of a valid string literal. -/
def unquote (raw : Bytes) : String :=
  String.mk ((decodePieces none (unescape none raw)).map Char.ofNat)

/-- A value is complete: it goes into the innermost open container, or it is the top-level
value. -/
def pushValue (parseState : List Frame) (v : JSONValue) : Scanner :=
  match parseState with
  | [] => { step := .endTop v, parseState := [] }
  | .arr elems :: rest => { step := .endValue, parseState := .arr (v :: elems) :: rest }
  | .obj fields key :: rest =>
    { step := .endValue, parseState := .obj ((key, v) :: fields) key :: rest }

/-- Go `pushParseState`: nesting beyond `maxNestingDepth` is an error. -/
def pushParseState (parseState : List Frame) (f : Frame) (step : Mode) : Option Scanner :=
  if parseState.length + 1 > maxNestingDepth then none
  else some { step := step, parseState := f :: parseState }

/-- Go `stateEndValue` and `stateEndTop`: the octet after a complete value. -/
def stateEndValue (s : Scanner) (c : Nat) : Option Scanner :=
  if isSpace c then some s
  else
    match s.step, s.parseState with
    | .endKey, _ => if c = 58 then some { s with step := .beginValue } else none
    | .endValue, .arr elems :: rest =>
      if c = 44 then some { s with step := .beginValue }
      else if c = 93 then some (pushValue rest (.array elems.reverse))
      else none
    | .endValue, .obj fields _ :: rest =>
      if c = 44 then some { s with step := .beginString }
      else if c = 125 then some (pushValue rest (.object fields.reverse))
      else none
    | _, _ => none

/-- Go `stateBeginValue`. -/
def stateBeginValue (s : Scanner) (c : Nat) : Option Scanner :=
  if isSpace c then some s
  else if c = 123 then pushParseState s.parseState (.obj [] "") .beginStringOrEmpty
  else if c = 91 then pushParseState s.parseState (.arr []) .beginValueOrEmpty
  else if c = 34 then some { s with step := .inString false [] }
  else if c = 45 then some { s with step := .inNumber .neg [c] }
  else if c = 48 then some { s with step := .inNumber .zero [c] }
  else if 49 ≤ c ∧ c ≤ 57 then some { s with step := .inNumber .int [c] }
  else if c = 116 then some { s with step := .inLiteral [114, 117, 101] (.bool true) }
  else if c = 102 then some { s with step := .inLiteral [97, 108, 115, 101] (.bool false) }
  else if c = 110 then some { s with step := .inLiteral [117, 108, 108] .null }
  else none

/-- The number literal is complete; `c` is the octet after it. -/
def endNumber (s : Scanner) (lit : Bytes) (c : Nat) : Option Scanner :=
  stateEndValue (pushValue s.parseState (.number lit.reverse)) c

/-- The scanner's steps inside a number literal (`stateNeg`, `state0`, `state1`, `stateDot`,
`stateDot0`, `stateE`, `stateESign`, `stateE0`). -/
def stateNumber (s : Scanner) (st : NumState) (lit : Bytes) (c : Nat) : Option Scanner :=
  match st with
  | .neg =>
    if c = 48 then some { s with step := .inNumber .zero (c :: lit) }
    else if 49 ≤ c ∧ c ≤ 57 then some { s with step := .inNumber .int (c :: lit) }
    else none
  | .int =>
    if isDigit c then some { s with step := .inNumber .int (c :: lit) }
    else if c = 46 then some { s with step := .inNumber .dot (c :: lit) }
    else if c = 101 ∨ c = 69 then some { s with step := .inNumber .exp (c :: lit) }
    else endNumber s lit c
  | .zero =>
    if c = 46 then some { s with step := .inNumber .dot (c :: lit) }
    else if c = 101 ∨ c = 69 then some { s with step := .inNumber .exp (c :: lit) }
    else endNumber s lit c
  | .dot =>
    if isDigit c then some { s with step := .inNumber .dot0 (c :: lit) } else none
  | .dot0 =>
    if isDigit c then some { s with step := .inNumber .dot0 (c :: lit) }
    else if c = 101 ∨ c = 69 then some { s with step := .inNumber .exp (c :: lit) }
    else endNumber s lit c
  | .exp =>
    if c = 43 ∨ c = 45 then some { s with step := .inNumber .expSign (c :: lit) }
    else if isDigit c then some { s with step := .inNumber .exp0 (c :: lit) }
    else none
  | .expSign =>
    if isDigit c then some { s with step := .inNumber .exp0 (c :: lit) } else none
  | .exp0 =>
    if isDigit c then some { s with step := .inNumber .exp0 (c :: lit) }
    else endNumber s lit c

/-- One step of the scanner on the octet `c`; `none` is a syntax error. -/
def scan (s : Scanner) (c : Nat) : Option Scanner :=
  match s.step with
  | .beginValue => stateBeginValue s c
  | .beginValueOrEmpty =>
    if isSpace c then some s
    else if c = 93 then stateEndValue { s with step := .endValue } c
    else stateBeginValue s c
  | .beginString =>
    if isSpace c then some s
    else if c = 34 then some { s with step := .inString true [] }
    else none
  | .beginStringOrEmpty =>
    if isSpace c then some s
    else if c = 125 then stateEndValue { s with step := .endValue } c
    else if c = 34 then some { s with step := .inString true [] }
    else none
  | .endKey => stateEndValue s c
  | .endValue => stateEndValue s c
  | .endTop _ => if isSpace c then some s else none
  | .inString isKey raw =>
    if c = 34 then
      if isKey then
        match s.parseState with
        | .obj fields _ :: rest =>
          some { step := .endKey, parseState := .obj fields (unquote raw.reverse) :: rest }
        | _ => none
      else some (pushValue s.parseState (.string (unquote raw.reverse)))
    else if c = 92 then some { s with step := .inStringEsc isKey (c :: raw) }
    else if c < 32 then none
    else some { s with step := .inString isKey (c :: raw) }
  | .inStringEsc isKey raw =>
    if c = 98 ∨ c = 102 ∨ c = 110 ∨ c = 114 ∨ c = 116 ∨ c = 92 ∨ c = 47 ∨ c = 34 then
      some { s with step := .inString isKey (c :: raw) }
    else if c = 117 then some { s with step := .inStringEscU isKey (c :: raw) 4 }
    else none
  | .inStringEscU isKey raw left =>
    if (hexVal c).isSome then
      if left ≤ 1 then some { s with step := .inString isKey (c :: raw) }
      else some { s with step := .inStringEscU isKey (c :: raw) (left - 1) }
    else none
  | .inNumber st lit => stateNumber s st lit c
  | .inLiteral rest v =>
    match rest with
    | [] => none
    | [x] => if c = x then some (pushValue s.parseState v) else none
    | x :: xs => if c = x then some { s with step := .inLiteral xs v } else none

/-- The scanner run over the octets, from the state `s`. -/
def scanAll : Option Scanner → Bytes → Option Scanner
  | s, [] => s
  | none, _ :: _ => none
  | some s, c :: rest => scanAll (scan s c) rest

/-- The JSON value of a document; `none` is a syntax error. As Go's `checkValid` does at the
end of the input, a space is fed to the scanner to end a top-level number. -/
def parse (data : Bytes) : Option JSONValue :=
  match scanAll (some { step := .beginValue, parseState := [] }) (data ++ [32]) with
  | some { step := .endTop v, parseState := _ } => some v
  | _ => none

/-- What has been read of a number literal: the digits of the mantissa as one natural
number, the count of those after the point, and the exponent with its sign. -/
structure Decimal where
  mant : Nat := 0
  fracDigits : Nat := 0
  inFrac : Bool := false
  inExp : Bool := false
  expNeg : Bool := false
  exp : Nat := 0

/-- One octet of a number literal read. -/
def readDecimal (d : Decimal) (c : Nat) : Decimal :=
  if 48 ≤ c ∧ c ≤ 57 then
    if d.inExp then { d with exp := d.exp * 10 + (c - 48) }
    else if d.inFrac then
      { d with mant := d.mant * 10 + (c - 48), fracDigits := d.fracDigits + 1 }
    else { d with mant := d.mant * 10 + (c - 48) }
  else if c = 46 then { d with inFrac := true }
  else if c = 101 ∨ c = 69 then { d with inExp := true }
  else if c = 45 ∧ d.inExp then { d with expNeg := true }
  else d

/-- The least magnitude that rounds to an infinite `float64`, `2^1024 - 2^970`. -/
def float64Overflow : Nat := (2 ^ 54 - 1) * (2 ^ 194) ^ 5

/-- Go `strconv.ParseFloat(lit, 64)` fails with a range error: the magnitude of the number
literal rounds to infinity. -/
def outOfRange (lit : Bytes) : Bool :=
  let d := lit.foldl readDecimal {}
  let up := if d.expNeg then 0 else d.exp
  let down := (if d.expNeg then d.exp else 0) + d.fracDigits
  decide (float64Overflow * 10 ^ down ≤ d.mant * 10 ^ up)

mutual
/-- Some number of the value is out of the `float64` range: decoding the value into an
`interface{}` saves an `UnmarshalTypeError`. -/
def rangeError : JSONValue → Bool
  | .number lit => outOfRange lit
  | .array xs => rangeErrorList xs
  | .object kvs => rangeErrorFields kvs
  | _ => false
/-- Some number of the values is out of the `float64` range. -/
def rangeErrorList : List JSONValue → Bool
  | [] => false
  | x :: xs => rangeError x || rangeErrorList xs
/-- Some number of the members is out of the `float64` range. -/
def rangeErrorFields : List (String × JSONValue) → Bool
  | [] => false
  | kv :: kvs => rangeError kv.2 || rangeErrorFields kvs
end

end json

namespace firehose

/-- The `firehose.Record`. -/
structure Record where
  Data : Bytes
  deriving DecidableEq, Repr

/-- The `firehose.PutRecordBatchInput`; a `*string` is an `Option String`. -/
structure PutRecordBatchInput where
  DeliveryStreamName : Option String
  Records : List Record
  deriving DecidableEq, Repr

/-- The `firehose.PutRecordBatchOutput`; the handler discards it. -/
structure PutRecordBatchOutput where
  FailedPutCount : Nat
  deriving DecidableEq, Repr

end firehose

namespace lambda

/-- Go `type Data struct`. -/
structure Data where
  Action : String := ""
  NonTerminatingMatchingRules : List JSONValue := []
  deriving Repr

/-- Go `type Record struct`. -/
structure Record where
  RecordID : String := ""
  Result : String := ""
  Data : String := ""
  DecodedData : lambda.Data := {}
  deriving Repr

/-- Go `type Event struct`: `Records []*Record`, an entry being `none` for a `nil` pointer. -/
structure Event where
  Records : List (Option Record)
  deriving Repr

/-- The standard-library functions `extractRecords` calls. -/
structure Lib where
  /-- The `base64.StdEncoding.DecodeString`. -/
  DecodeString : String → Except GoError Bytes
  /-- The `json.Unmarshal(decodedData, &data)` on `data := Data{}`. -/
  Unmarshal : Bytes → Except GoError Data

/-- A value of a `logrus.Fields` entry. -/
inductive LogValue where
  | str (s : String)
  | bytes (b : Bytes)
  | int (n : Nat)
  deriving DecidableEq, Repr

/-- One `logrus` call `WithFields(fields).WithError(err).Error(msg)`. -/
structure LogEntry where
  fields : List (String × LogValue)
  err : GoError
  msg : String
  deriving DecidableEq, Repr

/-- Go `type Firehose interface`: the client may keep state of type `σ`. -/
structure Firehose (σ : Type) where
  PutRecordBatchWithContext :
    σ → firehose.PutRecordBatchInput → σ × Except GoError firehose.PutRecordBatchOutput

/-- Go `type Handler struct`. -/
structure Handler (σ : Type) where
  Firehose : Firehose σ
  blockDeliveryStreamName : Option String
  countDeliveryStreamName : Option String

/-- Go `NewHandler`, given the client built from the session and the process environment. -/
def NewHandler {σ : Type} (client : Firehose σ) (getenv : String → String) : Handler σ :=
  { Firehose := client
    blockDeliveryStreamName := some (getenv "BLOCK_DELIVERY_STREAM_NAME")
    countDeliveryStreamName := some (getenv "COUNT_DELIVERY_STREAM_NAME") }

/-- The local variables of `extractRecords` (its three results) and the entries logged. -/
structure Extracted where
  records : List (Option Record)
  blockRecords : List firehose.Record
  countRecords : List firehose.Record
  logs : List LogEntry

/-- The body of the `for i, record := range ev.Records` loop of `extractRecords`, on the
record that `record` points to. -/
def loopBody (lib : Lib) (st : Extracted) (i : Nat) (record : Record) : Extracted :=
  let st := { st with
    records := st.records.set i
      (some { RecordID := record.RecordID, Result := "Ok", Data := record.Data }) }
  match lib.DecodeString record.Data with
  | .error err =>
    { st with logs := st.logs ++
        [{ fields := [("data", .str record.Data)], err := err,
           msg := "decode record.Data by base64" }] }
  | .ok decodedData =>
    match lib.Unmarshal decodedData with
    | .error err =>
      { st with logs := st.logs ++
          [{ fields := [("decoded_data", .bytes decodedData)], err := err,
             msg := "unmarshal data as JSON" }] }
    | .ok data =>
      if data.Action = "BLOCK" then
        { st with blockRecords := st.blockRecords ++ [{ Data := stringBytes record.Data }] }
      else if data.NonTerminatingMatchingRules.length ≠ 0 then
        { st with countRecords := st.countRecords ++ [{ Data := stringBytes record.Data }] }
      else st

/-- The `range` loop of `extractRecords`, from index `i` on. The body starts by reading
`record.RecordID`: on a `nil` entry it panics there, before it has written anything. -/
def rangeLoop (lib : Lib) : Nat → List (Option Record) → Extracted → Except GoPanic Extracted
  | _, [], st => .ok st
  | _, none :: _, _ => .error .nilDereference
  | i, some record :: rest, st => rangeLoop lib (i + 1) rest (loopBody lib st i record)

/-- Go `(*Handler).extractRecords`. On a `nil` event `len(ev.Records)` panics;
`make([]*Record, n)` is `n` `nil` pointers. -/
def extractRecords (lib : Lib) (ev : Option Event) : Except GoPanic Extracted :=
  match ev with
  | none => .error .nilDereference
  | some ev =>
    rangeLoop lib 0 ev.Records
      { records := List.replicate ev.Records.length none
        blockRecords := []
        countRecords := []
        logs := [] }

/-- What `Do` has done so far: the client's state, the requests issued, the entries logged. -/
structure Effects (σ : Type) where
  firehoseState : σ
  calls : List firehose.PutRecordBatchInput
  logs : List LogEntry

/-- One `if len(xs) != 0 { ... }` block of `Do`: a single `PutRecordBatchWithContext` call,
whose error is logged and dropped. -/
def putRecordBatch {σ : Type} (handler : Handler σ) (eff : Effects σ)
    (deliveryStreamName : Option String) (records : List firehose.Record) (msg : String) :
    Effects σ :=
  let input : firehose.PutRecordBatchInput :=
    { DeliveryStreamName := deliveryStreamName, Records := records }
  match handler.Firehose.PutRecordBatchWithContext eff.firehoseState input with
  | (s, .error err) =>
    { firehoseState := s
      calls := eff.calls ++ [input]
      logs := eff.logs ++
        [{ fields := [("delivery_stream_name", .str (input.DeliveryStreamName.getD "")),
                      ("num_records", .int input.Records.length)],
           err := err, msg := msg }] }
  | (s, .ok _) => { firehoseState := s, calls := eff.calls ++ [input], logs := eff.logs }

/-- The result of `Do`: the returned event and the effects of the invocation. -/
structure DoResult (σ : Type) where
  event : Event
  effects : Effects σ

/-- The part of `Do` after `extractRecords` has returned: the two deliveries and the
returned event. -/
def dispatch {σ : Type} (handler : Handler σ) (s : σ) (ex : Extracted) : DoResult σ :=
  let eff : Effects σ := { firehoseState := s, calls := [], logs := ex.logs }
  let eff :=
    if ex.blockRecords.length ≠ 0 then
      putRecordBatch handler eff handler.blockDeliveryStreamName ex.blockRecords
        "put block logs to Firehose"
    else eff
  let eff :=
    if ex.countRecords.length ≠ 0 then
      putRecordBatch handler eff handler.countDeliveryStreamName ex.countRecords
        "put count logs to Firehose"
    else eff
  { event := { Records := ex.records }, effects := eff }

/-- Go `(*Handler).Do`. A panic of `extractRecords` is not recovered: it ends `Do`. -/
def Do {σ : Type} (lib : Lib) (handler : Handler σ) (s : σ) (ev : Option Event) :
    Except GoPanic (DoResult σ) :=
  match extractRecords lib ev with
  | .error p => .error p
  | .ok ex => .ok (dispatch handler s ex)

/-! ## A model of `json.Unmarshal` into a `Data` -/

/-- Go `foldName` on one rune, exact on the runes that fold to an ASCII letter, which is what
matching a key against an ASCII field name needs. -/
def foldRune (c : Char) : Char :=
  if 97 ≤ c.toNat ∧ c.toNat ≤ 122 then Char.ofNat (c.toNat - 32)
  else if c.toNat = 0x17F then 'S'
  else if c.toNat = 0x212A then 'K'
  else c

/-- The key names the struct field tagged `name`: the match is case-insensitive. -/
def keyMatches (key name : String) : Bool :=
  key.data.map foldRune = name.data.map foldRune

/-- The decoder's state inside the top-level object: the struct so far, and the first
`UnmarshalTypeError` saved. -/
structure Decoded where
  data : Data
  savedError : Option GoError

/-- Go `saveError`: the first error is kept. -/
def saveError (d : Decoded) : Decoded :=
  { d with savedError := d.savedError.orElse (fun _ => some .jsonUnmarshalType) }

/-- One member of the top-level object stored into the struct: a `null` leaves a string as
it is and makes a slice `nil`; a value of the wrong kind saves an error and is skipped; an
array is stored, with an error saved if one of its numbers is out of the `float64` range; an
unknown key is skipped. -/
def decodeField (d : Decoded) (kv : String × JSONValue) : Decoded :=
  if keyMatches kv.1 "action" then
    match kv.2 with
    | .string s => { d with data := { d.data with Action := s } }
    | .null => d
    | _ => saveError d
  else if keyMatches kv.1 "nonTerminatingMatchingRules" then
    match kv.2 with
    | .array xs =>
      let d := { d with data := { d.data with NonTerminatingMatchingRules := xs } }
      if json.rangeErrorList xs then saveError d else d
    | .null => { d with data := { d.data with NonTerminatingMatchingRules := [] } }
    | _ => saveError d
  else d

/-- The members of the top-level object stored in document order. -/
def decodeObject (kvs : List (String × JSONValue)) : Decoded :=
  kvs.foldl decodeField { data := {}, savedError := none }

/-- Go `json.Unmarshal(data, &Data{})`: the document is checked for syntax first; a `null`
leaves the struct as it is; any other value that is not an object is a type error. -/
def jsonUnmarshal (data : Bytes) : Except GoError Data :=
  match json.parse data with
  | none => .error .jsonSyntax
  | some .null => .ok {}
  | some (.object kvs) =>
    match (decodeObject kvs).savedError with
    | some err => .error err
    | none => .ok (decodeObject kvs).data
  | some _ => .error .jsonUnmarshalType

/-- The Go standard library. -/
def goLib : Lib :=
  { DecodeString := base64.DecodeString, Unmarshal := jsonUnmarshal }

end lambda

/-! ## The loop of `extractRecords` -/

namespace lambda

/-- The delivery channel a record is routed to. -/
inductive Channel where
  | block
  | count
  deriving DecidableEq, Repr

/-- The branch the loop body takes on a record: the batch it appends to, if any. -/
def classify (lib : Lib) (record : Record) : Option Channel :=
  match lib.DecodeString record.Data with
  | .error _ => none
  | .ok decodedData =>
    match lib.Unmarshal decodedData with
    | .error _ => none
    | .ok data =>
      if data.Action = "BLOCK" then some .block
      else if data.NonTerminatingMatchingRules.length ≠ 0 then some .count
      else none

/-- The outcome entry written for a record. -/
def outcome (record : Record) : Record :=
  { RecordID := record.RecordID, Result := "Ok", Data := record.Data }

/-- The event whose entries point to the records `rs`, none of them `nil`. -/
def eventOf (rs : List Record) : Option Event :=
  some { Records := rs.map some }

/-- The record of the block scenario: its payload is the base64 text of
`\x7b"action":"BLOCK"\x7d`. -/
def blockRecord : Record :=
  { RecordID := "1", Data := "eyJhY3Rpb24iOiJCTE9DSyJ9" }

/-- The record of the count scenario: its payload is the base64 text of
`\x7b"action":"ALLOW","nonTerminatingMatchingRules":[\x7b"id":1\x7d]\x7d`. -/
def countRecord : Record :=
  { RecordID := "2"
    Data := "eyJhY3Rpb24iOiJBTExPVyIsIm5vblRlcm1pbmF0aW5nTWF0Y2hpbmdSdWxlcyI6W3siaWQiOjF9XX0=" }

/-- The record of the decode-failure scenario. -/
def invalidRecord : Record :=
  { RecordID := "3", Data := "not-valid-base64" }

/-- A record of the parse-failure case: its payload is the base64 text of `not json`. -/
def malformedRecord : Record :=
  { RecordID := "5", Data := "bm90IGpzb24=" }

/-- A record that passes through: its payload is the base64 text of
`\x7b"action":"ALLOW"\x7d`, a document without the matching-rules field. -/
def passRecord : Record :=
  { RecordID := "4", Data := "eyJhY3Rpb24iOiJBTExPVyJ9" }

/-- A client that fails every request; its state counts the requests it received. -/
def failingClient : Firehose Nat :=
  { PutRecordBatchWithContext := fun n _ => (n + 1, .error (.delivery "unavailable")) }

/-- A client that accepts every request; its state counts the requests it received. -/
def acceptingClient : Firehose Nat :=
  { PutRecordBatchWithContext := fun n _ => (n + 1, .ok { FailedPutCount := 0 }) }

/-- A client that keeps the requests it received, in order, and answers each one by
`respond`. -/
def recordingClient
    (respond : firehose.PutRecordBatchInput → Except GoError firehose.PutRecordBatchOutput) :
    Firehose (List firehose.PutRecordBatchInput) :=
  { PutRecordBatchWithContext := fun received input => (received ++ [input], respond input) }

/-- A handler on the recording client. -/
def recordingHandler
    (respond : firehose.PutRecordBatchInput → Except GoError firehose.PutRecordBatchOutput)
    (blockName countName : Option String) : Handler (List firehose.PutRecordBatchInput) :=
  { Firehose := recordingClient respond
    blockDeliveryStreamName := blockName
    countDeliveryStreamName := countName }

/-- The requests `Do` is to issue for the two batches under the handler's channel names. -/
def requestsFor {σ : Type} (handler : Handler σ) (ex : Extracted) :
    List firehose.PutRecordBatchInput :=
  (if ex.blockRecords ≠ [] then
      [{ DeliveryStreamName := handler.blockDeliveryStreamName, Records := ex.blockRecords }]
    else []) ++
  (if ex.countRecords ≠ [] then
      [{ DeliveryStreamName := handler.countDeliveryStreamName, Records := ex.countRecords }]
    else [])

theorem loopBody_records (lib : Lib) (st : Extracted) (i : Nat) (record : Record) :
    (loopBody lib st i record).records = st.records.set i (some (outcome record)) := by
  unfold loopBody outcome
  split
  · rfl
  · split
    · rfl
    · split
      · rfl
      · split <;> rfl

theorem loopBody_blockRecords (lib : Lib) (st : Extracted) (i : Nat) (record : Record) :
    (loopBody lib st i record).blockRecords =
      st.blockRecords ++
        (if classify lib record = some .block then [{ Data := stringBytes record.Data }]
         else []) := by
  unfold loopBody classify
  cases hd : lib.DecodeString record.Data with
  | error e => simp
  | ok decodedData =>
    cases hu : lib.Unmarshal decodedData with
    | error e => simp [hu]
    | ok data =>
      by_cases h1 : data.Action = "BLOCK" <;>
        by_cases h2 : data.NonTerminatingMatchingRules.length = 0 <;> simp [hu, h1, h2]

theorem loopBody_countRecords (lib : Lib) (st : Extracted) (i : Nat) (record : Record) :
    (loopBody lib st i record).countRecords =
      st.countRecords ++
        (if classify lib record = some .count then [{ Data := stringBytes record.Data }]
         else []) := by
  unfold loopBody classify
  cases hd : lib.DecodeString record.Data with
  | error e => simp
  | ok decodedData =>
    cases hu : lib.Unmarshal decodedData with
    | error e => simp [hu]
    | ok data =>
      by_cases h1 : data.Action = "BLOCK" <;>
        by_cases h2 : data.NonTerminatingMatchingRules.length = 0 <;> simp [hu, h1, h2]

/-- On entries that are all present the loop returns: the batches grow by the records of
their channel, in order, and every open slot is written. -/
theorem rangeLoop_present (lib : Lib) (rs : List Record) :
    ∀ (i : Nat) (st : Extracted),
      ∃ st', rangeLoop lib i (rs.map some) st = .ok st' ∧
        st'.blockRecords =
          st.blockRecords ++
            (rs.filter (fun r => classify lib r = some .block)).map
              (fun r => { Data := stringBytes r.Data }) ∧
        st'.countRecords =
          st.countRecords ++
            (rs.filter (fun r => classify lib r = some .count)).map
              (fun r => { Data := stringBytes r.Data }) ∧
        ∀ (done : List (Option Record)) (z : Option Record),
          st.records = done ++ List.replicate rs.length z → done.length = i →
          st'.records = done ++ rs.map (fun r => some (outcome r)) := by
  induction rs with
  | nil =>
    intro i st
    refine ⟨st, rfl, by simp, by simp, ?_⟩
    intro done z h _
    simpa using h
  | cons r rest ih =>
    intro i st
    obtain ⟨st', hrun, hb, hc, hr⟩ := ih (i + 1) (loopBody lib st i r)
    refine ⟨st', ?_, ?_, ?_, ?_⟩
    · simpa [rangeLoop] using hrun
    · rw [hb, loopBody_blockRecords]
      by_cases h : classify lib r = some .block <;> simp [List.filter_cons, h]
    · rw [hc, loopBody_countRecords]
      by_cases h : classify lib r = some .count <;> simp [List.filter_cons, h]
    · intro done z h hi
      rw [hr (done ++ [some (outcome r)]) z]
      · simp
      · rw [loopBody_records, h, ← hi]
        simp [List.replicate_succ]
      · simp [hi]

/-- The loop panics on a `nil` entry. -/
theorem rangeLoop_nil (lib : Lib) (pre : List Record) (post : List (Option Record)) :
    ∀ (i : Nat) (st : Extracted),
      rangeLoop lib i (pre.map some ++ none :: post) st = .error .nilDereference := by
  induction pre with
  | nil => intro i st; rfl
  | cons r rest ih =>
    intro i st
    simpa [rangeLoop] using ih (i + 1) (loopBody lib st i r)

theorem extractRecords_present (lib : Lib) (rs : List Record) :
    ∃ ex, extractRecords lib (eventOf rs) = .ok ex ∧
      ex.records = rs.map (fun r => some (outcome r)) ∧
      ex.blockRecords =
        (rs.filter (fun r => classify lib r = some .block)).map
          (fun r => { Data := stringBytes r.Data }) ∧
      ex.countRecords =
        (rs.filter (fun r => classify lib r = some .count)).map
          (fun r => { Data := stringBytes r.Data }) := by
  obtain ⟨st', hrun, hb, hc, hr⟩ := rangeLoop_present lib rs 0
    { records := List.replicate (rs.map some).length none, blockRecords := [],
      countRecords := [], logs := [] }
  refine ⟨st', hrun, ?_, by simpa using hb, by simpa using hc⟩
  simpa using hr [] none (by simp) rfl

theorem entries_present (l : List (Option Record)) (h : ∀ r ∈ l, r ≠ none) :
    ∃ rs : List Record, l = rs.map some := by
  induction l with
  | nil => exact ⟨[], rfl⟩
  | cons x rest ih =>
    obtain ⟨rs, hrs⟩ := ih (fun r hr => h r (List.mem_cons_of_mem _ hr))
    cases x with
    | none => exact absurd rfl (h none (List.mem_cons_self _ _))
    | some r => exact ⟨r :: rs, by simp [hrs]⟩

theorem rangeLoop_ok_present (lib : Lib) (l : List (Option Record)) :
    ∀ (i : Nat) (st st' : Extracted), rangeLoop lib i l st = .ok st' → ∀ r ∈ l, r ≠ none := by
  induction l with
  | nil => intro i st st' _ r hr; cases hr
  | cons x rest ih =>
    intro i st st' h r hr
    cases x with
    | none => simp [rangeLoop] at h
    | some record =>
      rw [List.mem_cons] at hr
      rcases hr with hr | hr
      · rw [hr]; simp
      · exact ih (i + 1) _ st' (by simpa [rangeLoop] using h) r hr

/-- The function `extractRecords` returns only on an event of present records. -/
theorem extractRecords_ok_present (lib : Lib) (ev : Option Event) (ex : Extracted)
    (h : extractRecords lib ev = .ok ex) : ∃ rs : List Record, ev = eventOf rs := by
  cases ev with
  | none => simp [extractRecords] at h
  | some e =>
    obtain ⟨rs, hrs⟩ := entries_present e.Records
      (rangeLoop_ok_present lib e.Records 0 _ ex (by simpa [extractRecords] using h))
    refine ⟨rs, ?_⟩
    cases e
    simp only [eventOf] at *
    rw [hrs]

theorem Do_of_extractRecords {σ : Type} (lib : Lib) (handler : Handler σ) (s : σ)
    (ev : Option Event) (ex : Extracted) (h : extractRecords lib ev = .ok ex) :
    Do lib handler s ev = .ok (dispatch handler s ex) := by
  simp [Do, h]

/-! ## Classification of one record -/

theorem classify_block (lib : Lib) (record : Record) (decodedData : Bytes) (data : Data)
    (hdecode : lib.DecodeString record.Data = .ok decodedData)
    (hparse : lib.Unmarshal decodedData = .ok data) (haction : data.Action = "BLOCK") :
    classify lib record = some .block := by
  simp [classify, hdecode, hparse, haction]

theorem classify_count (lib : Lib) (record : Record) (decodedData : Bytes) (data : Data)
    (hdecode : lib.DecodeString record.Data = .ok decodedData)
    (hparse : lib.Unmarshal decodedData = .ok data) (haction : data.Action ≠ "BLOCK")
    (hrules : 1 ≤ data.NonTerminatingMatchingRules.length) :
    classify lib record = some .count := by
  have : data.NonTerminatingMatchingRules.length ≠ 0 := by omega
  simp [classify, hdecode, hparse, haction, this]

theorem classify_pass (lib : Lib) (record : Record) (decodedData : Bytes) (data : Data)
    (hdecode : lib.DecodeString record.Data = .ok decodedData)
    (hparse : lib.Unmarshal decodedData = .ok data) (haction : data.Action ≠ "BLOCK")
    (hrules : data.NonTerminatingMatchingRules.length = 0) :
    classify lib record = none := by
  simp [classify, hdecode, hparse, haction, hrules]

theorem classify_failed (lib : Lib) (record : Record)
    (h : (∃ err, lib.DecodeString record.Data = .error err) ∨
      (∃ decodedData err, lib.DecodeString record.Data = .ok decodedData ∧
        lib.Unmarshal decodedData = .error err)) :
    classify lib record = none := by
  rcases h with ⟨err, hd⟩ | ⟨decodedData, err, hd, hu⟩
  · simp [classify, hd]
  · simp [classify, hd, hu]

theorem classify_eq_block_iff (lib : Lib) (record : Record) :
    classify lib record = some .block ↔
      ∃ decodedData data, lib.DecodeString record.Data = .ok decodedData ∧
        lib.Unmarshal decodedData = .ok data ∧ data.Action = "BLOCK" := by
  constructor
  · intro h
    unfold classify at h
    cases hd : lib.DecodeString record.Data with
    | error e => simp [hd] at h
    | ok decodedData =>
      cases hu : lib.Unmarshal decodedData with
      | error e => simp [hd, hu] at h
      | ok data =>
        refine ⟨decodedData, data, rfl, hu, ?_⟩
        by_contra hne
        by_cases h2 : data.NonTerminatingMatchingRules.length = 0 <;>
          simp [hd, hu, hne, h2] at h
  · rintro ⟨decodedData, data, hd, hu, ha⟩
    exact classify_block lib record decodedData data hd hu ha

theorem classify_eq_count_iff (lib : Lib) (record : Record) :
    classify lib record = some .count ↔
      ∃ decodedData data, lib.DecodeString record.Data = .ok decodedData ∧
        lib.Unmarshal decodedData = .ok data ∧ data.Action ≠ "BLOCK" ∧
        data.NonTerminatingMatchingRules.length ≠ 0 := by
  constructor
  · intro h
    unfold classify at h
    cases hd : lib.DecodeString record.Data with
    | error e => simp [hd] at h
    | ok decodedData =>
      cases hu : lib.Unmarshal decodedData with
      | error e => simp [hd, hu] at h
      | ok data =>
        refine ⟨decodedData, data, rfl, hu, ?_, ?_⟩
        · intro ha
          simp [hd, hu, ha] at h
        · intro h2
          by_cases ha : data.Action = "BLOCK" <;> simp [hd, hu, ha, h2] at h
  · rintro ⟨decodedData, data, hd, hu, ha, hr⟩
    exact classify_count lib record decodedData data hd hu ha (by omega)

/-- The batches and outcomes of an event around one of its records, all entries present. -/
theorem extractRecords_around (lib : Lib) (pre post : List Record) (record : Record) :
    ∃ exPre exPost ex,
      extractRecords lib (eventOf pre) = .ok exPre ∧
      extractRecords lib (eventOf post) = .ok exPost ∧
      extractRecords lib (eventOf (pre ++ record :: post)) = .ok ex ∧
      ex.blockRecords =
        exPre.blockRecords ++
          (if classify lib record = some .block then [{ Data := stringBytes record.Data }]
           else []) ++
          exPost.blockRecords ∧
      ex.countRecords =
        exPre.countRecords ++
          (if classify lib record = some .count then [{ Data := stringBytes record.Data }]
           else []) ++
          exPost.countRecords ∧
      ex.records.length = pre.length + 1 + post.length ∧
      ex.records[pre.length]? = some (some (outcome record)) := by
  obtain ⟨exPre, h1, _, hb1, hc1⟩ := extractRecords_present lib pre
  obtain ⟨exPost, h2, _, hb2, hc2⟩ := extractRecords_present lib post
  obtain ⟨ex, h3, hr3, hb3, hc3⟩ := extractRecords_present lib (pre ++ record :: post)
  refine ⟨exPre, exPost, ex, h1, h2, h3, ?_, ?_, ?_, ?_⟩
  · rw [hb1, hb2, hb3]
    by_cases h : classify lib record = some .block <;> simp [List.filter_cons, h]
  · rw [hc1, hc2, hc3]
    by_cases h : classify lib record = some .count <;> simp [List.filter_cons, h]
  · rw [hr3]
    simp
    omega
  · rw [hr3]
    simp only [List.map_append, List.map_cons]
    rw [List.getElem?_append_right (by simp)]
    simp

theorem extractRecords_eventOf_nil (lib : Lib) (ex : Extracted)
    (h : extractRecords lib (eventOf []) = .ok ex) :
    ex.records = [] ∧ ex.blockRecords = [] ∧ ex.countRecords = [] := by
  have h0 : extractRecords lib (eventOf []) =
      .ok { records := [], blockRecords := [], countRecords := [], logs := [] } := rfl
  rw [h0] at h
  cases h
  exact ⟨rfl, rfl, rfl⟩

/-! ## The outcome sequence -/

/-- C1: on every event of present records, `extractRecords` returns, and its outcome
sequence, hence the records of the event `Do` returns, is the input sequence mapped
pointwise to (identifier, "Ok", payload): it has the length of the input and its entry at
every position carries the identifier and the payload of the input entry at that position,
whatever the library answers on the payloads. On any event at all, an outcome sequence that
`extractRecords` returns is the input sequence mapped pointwise in this way. -/
theorem extractRecords_outcome_sequence (lib : Lib) (rs : List Record) :
    ∃ ex, extractRecords lib (eventOf rs) = .ok ex ∧
      ex.records =
        rs.map (fun r => some { RecordID := r.RecordID, Result := "Ok", Data := r.Data }) ∧
      ex.records.length = rs.length ∧
      (∀ i : Fin rs.length,
        ex.records[i.val]? =
          some (some { RecordID := (rs.get i).RecordID, Result := "Ok",
                       Data := (rs.get i).Data })) ∧
      (∀ (σ : Type) (handler : Handler σ) (s : σ),
        ∃ out, Do lib handler s (eventOf rs) = .ok out ∧
          out.event.Records =
            rs.map (fun r => some { RecordID := r.RecordID, Result := "Ok", Data := r.Data })) ∧
      (∀ (ev : Event) (returned : Extracted), extractRecords lib (some ev) = .ok returned →
        returned.records =
          ev.Records.map
            (Option.map (fun r => { RecordID := r.RecordID, Result := "Ok", Data := r.Data }))) := by
  obtain ⟨ex, hex, hr, _, _⟩ := extractRecords_present lib rs
  refine ⟨ex, hex, hr, ?_, ?_, ?_, ?_⟩
  · simp [hr]
  · intro i
    simp [hr, outcome]
  · intro σ handler s
    exact ⟨_, Do_of_extractRecords lib handler s _ ex hex, hr⟩
  · intro ev returned hret
    obtain ⟨qs, hqs⟩ := extractRecords_ok_present lib (some ev) returned hret
    obtain ⟨ex', hex', hr', _, _⟩ := extractRecords_present lib qs
    rw [hqs, hex'] at hret
    cases hret
    simp only [eventOf, Option.some.injEq] at hqs
    rw [hr', hqs]
    simp [outcome]

/-! ## Routing of one record -/

/-- C2: a record whose payload decodes and parses with action "BLOCK" extends the block
batch by exactly one entry, the octets of its still-encoded payload, and leaves the count
batch as it is, whatever its matching rules are: so for one pass of the loop body, and so
for the batches of a whole event around that record. -/
theorem block_record_extends_block_batch (lib : Lib) (record : Record) (decodedData : Bytes)
    (data : Data) (hdecode : lib.DecodeString record.Data = .ok decodedData)
    (hparse : lib.Unmarshal decodedData = .ok data) (haction : data.Action = "BLOCK") :
    (∀ (st : Extracted) (i : Nat),
        (loopBody lib st i record).blockRecords =
            st.blockRecords ++ [{ Data := stringBytes record.Data }] ∧
          (loopBody lib st i record).countRecords = st.countRecords) ∧
      (∀ pre post : List Record,
        ∃ exPre exPost ex,
          extractRecords lib (eventOf pre) = .ok exPre ∧
          extractRecords lib (eventOf post) = .ok exPost ∧
          extractRecords lib (eventOf (pre ++ record :: post)) = .ok ex ∧
          ex.blockRecords =
            exPre.blockRecords ++ { Data := stringBytes record.Data } :: exPost.blockRecords ∧
          ex.countRecords = exPre.countRecords ++ exPost.countRecords) := by
  have hc := classify_block lib record decodedData data hdecode hparse haction
  constructor
  · intro st i
    rw [loopBody_blockRecords, loopBody_countRecords, hc]
    simp
  · intro pre post
    obtain ⟨exPre, exPost, ex, h1, h2, h3, hb, hcnt, _, _⟩ :=
      extractRecords_around lib pre post record
    refine ⟨exPre, exPost, ex, h1, h2, h3, ?_, ?_⟩
    · rw [hb, hc]; simp
    · rw [hcnt, hc]; simp

/-- The block scenario: the event holding the one record "1" with the base64 text of
`\x7b"action":"BLOCK"\x7d` gives a block batch of one entry, the octets of that base64 text,
and an empty count batch. -/
theorem block_record_scenario :
    goLib.DecodeString blockRecord.Data = .ok (stringBytes "\x7b\"action\":\"BLOCK\"\x7d") ∧
      goLib.Unmarshal (stringBytes "\x7b\"action\":\"BLOCK\"\x7d") = .ok { Action := "BLOCK" } ∧
      ∃ ex, extractRecords goLib (some { Records := [some blockRecord] }) = .ok ex ∧
        ex.blockRecords = [{ Data := stringBytes "eyJhY3Rpb24iOiJCTE9DSyJ9" }] ∧
        ex.countRecords = [] := by
  have hd : goLib.DecodeString blockRecord.Data =
      .ok (stringBytes "\x7b\"action\":\"BLOCK\"\x7d") := by rfl
  have hu : goLib.Unmarshal (stringBytes "\x7b\"action\":\"BLOCK\"\x7d") =
      .ok { Action := "BLOCK" } := by rfl
  obtain ⟨exPre, exPost, ex, h1, h2, h3, hb, hc⟩ :=
    (block_record_extends_block_batch goLib blockRecord _ _ hd hu rfl).2 [] []
  obtain ⟨_, hb1, hc1⟩ := extractRecords_eventOf_nil goLib exPre h1
  obtain ⟨_, hb2, hc2⟩ := extractRecords_eventOf_nil goLib exPost h2
  refine ⟨hd, hu, ex, h3, ?_, ?_⟩
  · rw [hb, hb1, hb2]; rfl
  · rw [hc, hc1, hc2]; rfl

/-- C3: a record whose payload decodes and parses with an action other than "BLOCK" and at
least one matching rule extends the count batch by exactly one entry, the octets of its
still-encoded payload, and leaves the block batch as it is. -/
theorem count_record_extends_count_batch (lib : Lib) (record : Record) (decodedData : Bytes)
    (data : Data) (hdecode : lib.DecodeString record.Data = .ok decodedData)
    (hparse : lib.Unmarshal decodedData = .ok data) (haction : data.Action ≠ "BLOCK")
    (hrules : 1 ≤ data.NonTerminatingMatchingRules.length) :
    (∀ (st : Extracted) (i : Nat),
        (loopBody lib st i record).countRecords =
            st.countRecords ++ [{ Data := stringBytes record.Data }] ∧
          (loopBody lib st i record).blockRecords = st.blockRecords) ∧
      (∀ pre post : List Record,
        ∃ exPre exPost ex,
          extractRecords lib (eventOf pre) = .ok exPre ∧
          extractRecords lib (eventOf post) = .ok exPost ∧
          extractRecords lib (eventOf (pre ++ record :: post)) = .ok ex ∧
          ex.countRecords =
            exPre.countRecords ++ { Data := stringBytes record.Data } :: exPost.countRecords ∧
          ex.blockRecords = exPre.blockRecords ++ exPost.blockRecords) := by
  have hc := classify_count lib record decodedData data hdecode hparse haction hrules
  constructor
  · intro st i
    rw [loopBody_blockRecords, loopBody_countRecords, hc]
    simp
  · intro pre post
    obtain ⟨exPre, exPost, ex, h1, h2, h3, hb, hcnt, _, _⟩ :=
      extractRecords_around lib pre post record
    refine ⟨exPre, exPost, ex, h1, h2, h3, ?_, ?_⟩
    · rw [hcnt, hc]; simp
    · rw [hb, hc]; simp

/-- The count scenario: the event holding the one record "2" with the base64 text of
`\x7b"action":"ALLOW","nonTerminatingMatchingRules":[\x7b"id":1\x7d]\x7d` gives a count
batch of one entry and an empty block batch. -/
theorem count_record_scenario :
    goLib.DecodeString countRecord.Data =
        .ok (stringBytes
          "\x7b\"action\":\"ALLOW\",\"nonTerminatingMatchingRules\":[\x7b\"id\":1\x7d]\x7d") ∧
      goLib.Unmarshal (stringBytes
          "\x7b\"action\":\"ALLOW\",\"nonTerminatingMatchingRules\":[\x7b\"id\":1\x7d]\x7d") =
        .ok { Action := "ALLOW"
              NonTerminatingMatchingRules := [.object [("id", .number [49])]] } ∧
      ∃ ex, extractRecords goLib (some { Records := [some countRecord] }) = .ok ex ∧
        ex.countRecords = [{ Data := stringBytes countRecord.Data }] ∧
        ex.blockRecords = [] := by
  have hd : goLib.DecodeString countRecord.Data =
      .ok (stringBytes
        "\x7b\"action\":\"ALLOW\",\"nonTerminatingMatchingRules\":[\x7b\"id\":1\x7d]\x7d") := by
    rfl
  have hu : goLib.Unmarshal (stringBytes
        "\x7b\"action\":\"ALLOW\",\"nonTerminatingMatchingRules\":[\x7b\"id\":1\x7d]\x7d") =
      .ok { Action := "ALLOW"
            NonTerminatingMatchingRules := [.object [("id", .number [49])]] } := by
    rfl
  obtain ⟨exPre, exPost, ex, h1, h2, h3, hc, hb⟩ :=
    (count_record_extends_count_batch goLib countRecord _ _ hd hu (by decide)
      (by decide)).2 [] []
  obtain ⟨_, hb1, hc1⟩ := extractRecords_eventOf_nil goLib exPre h1
  obtain ⟨_, hb2, hc2⟩ := extractRecords_eventOf_nil goLib exPost h2
  refine ⟨hd, hu, ex, h3, ?_, ?_⟩
  · rw [hc, hc1, hc2]; rfl
  · rw [hb, hb1, hb2]; rfl

theorem decodeField_rules_of_not_matches (d : Decoded) (kv : String × JSONValue)
    (h : keyMatches kv.1 "nonTerminatingMatchingRules" = false) :
    (decodeField d kv).data.NonTerminatingMatchingRules = d.data.NonTerminatingMatchingRules := by
  unfold decodeField
  by_cases ha : keyMatches kv.1 "action" = true
  · simp only [ha, if_true]
    split <;> rfl
  · simp [ha, h]

theorem foldl_decodeField_rules (kvs : List (String × JSONValue)) :
    ∀ d : Decoded, (∀ kv ∈ kvs, keyMatches kv.1 "nonTerminatingMatchingRules" = false) →
      (kvs.foldl decodeField d).data.NonTerminatingMatchingRules =
        d.data.NonTerminatingMatchingRules := by
  induction kvs with
  | nil => intro d _; rfl
  | cons kv rest ih =>
    intro d h
    rw [List.foldl_cons, ih _ (fun x hx => h x (List.mem_cons_of_mem _ hx))]
    exact decodeField_rules_of_not_matches d kv (h kv (List.mem_cons_self _ _))

theorem jsonUnmarshal_rules_absent (doc : Bytes) (kvs : List (String × JSONValue))
    (data : Data) (hdoc : json.parse doc = some (.object kvs))
    (habsent : ∀ kv ∈ kvs, keyMatches kv.1 "nonTerminatingMatchingRules" = false)
    (hparse : jsonUnmarshal doc = .ok data) :
    data.NonTerminatingMatchingRules = [] := by
  unfold jsonUnmarshal at hparse
  rw [hdoc] at hparse
  simp only [] at hparse
  cases hs : (decodeObject kvs).savedError with
  | some err => simp [hs] at hparse
  | none =>
    simp only [hs, Except.ok.injEq] at hparse
    rw [← hparse]
    exact foldl_decodeField_rules kvs _ habsent

theorem batches_nil_of_classify_none (lib : Lib) (rs : List Record)
    (h : ∀ r ∈ rs, classify lib r = none) :
    ∃ ex, extractRecords lib (eventOf rs) = .ok ex ∧
      ex.blockRecords = [] ∧ ex.countRecords = [] := by
  obtain ⟨ex, hex, _, hb, hc⟩ := extractRecords_present lib rs
  refine ⟨ex, hex, ?_, ?_⟩
  · rw [hb, List.map_eq_nil_iff, List.filter_eq_nil_iff]
    intro r hr
    simp [h r hr]
  · rw [hc, List.map_eq_nil_iff, List.filter_eq_nil_iff]
    intro r hr
    simp [h r hr]

/-- C4: a record whose payload decodes and parses with an action other than "BLOCK" and no
matching rule leaves the block batch and the count batch as they are; an event made only of
such records gives two empty batches; and a document that parses to an object without the
matching-rules field unmarshals to an empty list of rules. -/
theorem pass_record_leaves_batches (lib : Lib) (record : Record) (decodedData : Bytes)
    (data : Data) (hdecode : lib.DecodeString record.Data = .ok decodedData)
    (hparse : lib.Unmarshal decodedData = .ok data) (haction : data.Action ≠ "BLOCK")
    (hrules : data.NonTerminatingMatchingRules.length = 0) :
    (∀ (st : Extracted) (i : Nat),
        (loopBody lib st i record).blockRecords = st.blockRecords ∧
          (loopBody lib st i record).countRecords = st.countRecords) ∧
      (∀ pre post : List Record,
        ∃ exPre exPost ex,
          extractRecords lib (eventOf pre) = .ok exPre ∧
          extractRecords lib (eventOf post) = .ok exPost ∧
          extractRecords lib (eventOf (pre ++ record :: post)) = .ok ex ∧
          ex.blockRecords = exPre.blockRecords ++ exPost.blockRecords ∧
          ex.countRecords = exPre.countRecords ++ exPost.countRecords) ∧
      (∀ rs : List Record,
        (∀ r ∈ rs, ∃ b d, lib.DecodeString r.Data = .ok b ∧ lib.Unmarshal b = .ok d ∧
          d.Action ≠ "BLOCK" ∧ d.NonTerminatingMatchingRules.length = 0) →
        ∃ ex, extractRecords lib (eventOf rs) = .ok ex ∧
          ex.blockRecords = [] ∧ ex.countRecords = []) ∧
      (∀ (doc : Bytes) (kvs : List (String × JSONValue)) (d : Data),
        json.parse doc = some (.object kvs) →
        (∀ kv ∈ kvs, keyMatches kv.1 "nonTerminatingMatchingRules" = false) →
        goLib.Unmarshal doc = .ok d → d.NonTerminatingMatchingRules = []) := by
  have hc := classify_pass lib record decodedData data hdecode hparse haction hrules
  refine ⟨?_, ?_, ?_, ?_⟩
  · intro st i
    rw [loopBody_blockRecords, loopBody_countRecords, hc]
    simp
  · intro pre post
    obtain ⟨exPre, exPost, ex, h1, h2, h3, hb, hcnt, _, _⟩ :=
      extractRecords_around lib pre post record
    refine ⟨exPre, exPost, ex, h1, h2, h3, ?_, ?_⟩
    · rw [hb, hc]; simp
    · rw [hcnt, hc]; simp
  · intro rs h
    apply batches_nil_of_classify_none
    intro r hr
    obtain ⟨b, d, hd, hu, ha, hl⟩ := h r hr
    exact classify_pass lib r b d hd hu ha hl
  · intro doc kvs d hdoc habsent hu
    exact jsonUnmarshal_rules_absent doc kvs d hdoc habsent hu

/-- The pass-through scenario: the record "4" carries the base64 text of
`\x7b"action":"ALLOW"\x7d`, whose document has no matching-rules field; it unmarshals to
no rule, and the event holding it alone gives two empty batches. -/
theorem pass_record_scenario :
    goLib.DecodeString passRecord.Data = .ok (stringBytes "\x7b\"action\":\"ALLOW\"\x7d") ∧
      json.parse (stringBytes "\x7b\"action\":\"ALLOW\"\x7d") =
        some (.object [("action", .string "ALLOW")]) ∧
      goLib.Unmarshal (stringBytes "\x7b\"action\":\"ALLOW\"\x7d") = .ok { Action := "ALLOW" } ∧
      ∃ ex, extractRecords goLib (some { Records := [some passRecord] }) = .ok ex ∧
        ex.blockRecords = [] ∧ ex.countRecords = [] := by
  have hd : goLib.DecodeString passRecord.Data =
      .ok (stringBytes "\x7b\"action\":\"ALLOW\"\x7d") := by rfl
  have hj : json.parse (stringBytes "\x7b\"action\":\"ALLOW\"\x7d") =
      some (.object [("action", .string "ALLOW")]) := by rfl
  have hu : goLib.Unmarshal (stringBytes "\x7b\"action\":\"ALLOW\"\x7d") =
      .ok { Action := "ALLOW" } := by rfl
  have h := pass_record_leaves_batches goLib passRecord _ _ hd hu (by decide) rfl
  have hb := h.2.2.1 [passRecord] (by
    intro r hr
    rw [List.mem_singleton] at hr
    subst hr
    exact ⟨_, _, hd, hu, by decide, rfl⟩)
  exact ⟨hd, hj, hu, hb⟩

/-- C5: a record whose payload is not valid base64, or whose decoded octets do not unmarshal,
adds nothing to the block batch and nothing to the count batch; the records after it are
still processed, and its outcome entry stands at its position with result "Ok". -/
theorem failed_record_leaves_batches (lib : Lib) (record : Record)
    (hfail : (∃ err, lib.DecodeString record.Data = .error err) ∨
      (∃ decodedData err, lib.DecodeString record.Data = .ok decodedData ∧
        lib.Unmarshal decodedData = .error err)) :
    (∀ (st : Extracted) (i : Nat),
        (loopBody lib st i record).blockRecords = st.blockRecords ∧
          (loopBody lib st i record).countRecords = st.countRecords ∧
          (loopBody lib st i record).records =
            st.records.set i
              (some { RecordID := record.RecordID, Result := "Ok", Data := record.Data })) ∧
      (∀ pre post : List Record,
        ∃ exPre exPost ex,
          extractRecords lib (eventOf pre) = .ok exPre ∧
          extractRecords lib (eventOf post) = .ok exPost ∧
          extractRecords lib (eventOf (pre ++ record :: post)) = .ok ex ∧
          ex.blockRecords = exPre.blockRecords ++ exPost.blockRecords ∧
          ex.countRecords = exPre.countRecords ++ exPost.countRecords ∧
          ex.records.length = pre.length + 1 + post.length ∧
          ex.records[pre.length]? =
            some (some { RecordID := record.RecordID, Result := "Ok",
                         Data := record.Data })) := by
  have hc := classify_failed lib record hfail
  constructor
  · intro st i
    rw [loopBody_blockRecords, loopBody_countRecords, loopBody_records, hc]
    simp [outcome]
  · intro pre post
    obtain ⟨exPre, exPost, ex, h1, h2, h3, hb, hcnt, hlen, hget⟩ :=
      extractRecords_around lib pre post record
    refine ⟨exPre, exPost, ex, h1, h2, h3, ?_, ?_, hlen, hget⟩
    · rw [hb, hc]; simp
    · rw [hcnt, hc]; simp

/-- The failure scenarios: the event holding the one record "3" with the payload
`not-valid-base64` gives one outcome with result "Ok" and two empty batches; so does the
event holding the one record "5", whose payload decodes to `not json`. -/
theorem invalid_record_scenario :
    goLib.DecodeString invalidRecord.Data = .error .corruptInput ∧
      (∃ ex, extractRecords goLib (some { Records := [some invalidRecord] }) = .ok ex ∧
        ex.blockRecords = [] ∧ ex.countRecords = [] ∧ ex.records.length = 1 ∧
        ex.records[0]? =
          some (some { RecordID := "3", Result := "Ok", Data := "not-valid-base64" })) ∧
      goLib.DecodeString malformedRecord.Data = .ok (stringBytes "not json") ∧
      goLib.Unmarshal (stringBytes "not json") = .error .jsonSyntax ∧
      (∃ ex, extractRecords goLib (some { Records := [some malformedRecord] }) = .ok ex ∧
        ex.blockRecords = [] ∧ ex.countRecords = [] ∧ ex.records.length = 1 ∧
        ex.records[0]? =
          some (some { RecordID := "5", Result := "Ok", Data := "bm90IGpzb24=" })) := by
  have hd : goLib.DecodeString invalidRecord.Data = .error .corruptInput := by rfl
  have hd5 : goLib.DecodeString malformedRecord.Data = .ok (stringBytes "not json") := by rfl
  have hu5 : goLib.Unmarshal (stringBytes "not json") = .error .jsonSyntax := by rfl
  obtain ⟨exPre, exPost, ex, h1, h2, h3, hb, hc, hlen, hget⟩ :=
    (failed_record_leaves_batches goLib invalidRecord (Or.inl ⟨_, hd⟩)).2 [] []
  obtain ⟨_, hb1, hc1⟩ := extractRecords_eventOf_nil goLib exPre h1
  obtain ⟨_, hb2, hc2⟩ := extractRecords_eventOf_nil goLib exPost h2
  obtain ⟨fxPre, fxPost, fx, g1, g2, g3, gb, gc, glen, gget⟩ :=
    (failed_record_leaves_batches goLib malformedRecord (Or.inr ⟨_, _, hd5, hu5⟩)).2 [] []
  obtain ⟨_, gb1, gc1⟩ := extractRecords_eventOf_nil goLib fxPre g1
  obtain ⟨_, gb2, gc2⟩ := extractRecords_eventOf_nil goLib fxPost g2
  refine ⟨hd, ⟨ex, h3, ?_, ?_, hlen, hget⟩, hd5, hu5, ⟨fx, g3, ?_, ?_, glen, gget⟩⟩
  · rw [hb, hb1, hb2]; rfl
  · rw [hc, hc1, hc2]; rfl
  · rw [gb, gb1, gb2]; rfl
  · rw [gc, gc1, gc2]; rfl

/-! ## Dispatch -/

theorem putRecordBatch_calls {σ : Type} (handler : Handler σ) (eff : Effects σ)
    (name : Option String) (records : List firehose.Record) (msg : String) :
    (putRecordBatch handler eff name records msg).calls =
      eff.calls ++ [{ DeliveryStreamName := name, Records := records }] := by
  unfold putRecordBatch
  rcases h : handler.Firehose.PutRecordBatchWithContext eff.firehoseState
    { DeliveryStreamName := name, Records := records } with ⟨s, e | o⟩ <;> simp [h]

theorem putRecordBatch_firehoseState {σ : Type} (handler : Handler σ) (eff : Effects σ)
    (name : Option String) (records : List firehose.Record) (msg : String) :
    (putRecordBatch handler eff name records msg).firehoseState =
      (handler.Firehose.PutRecordBatchWithContext eff.firehoseState
        { DeliveryStreamName := name, Records := records }).1 := by
  unfold putRecordBatch
  rcases h : handler.Firehose.PutRecordBatchWithContext eff.firehoseState
    { DeliveryStreamName := name, Records := records } with ⟨s, e | o⟩ <;> simp [h]

theorem dispatch_calls {σ : Type} (handler : Handler σ) (s : σ) (ex : Extracted) :
    (dispatch handler s ex).effects.calls = requestsFor handler ex := by
  unfold dispatch requestsFor
  by_cases hb : ex.blockRecords = [] <;> by_cases hc : ex.countRecords = [] <;>
    simp [hb, hc, putRecordBatch_calls]

theorem dispatch_recorded
    (respond : firehose.PutRecordBatchInput → Except GoError firehose.PutRecordBatchOutput)
    (blockName countName : Option String) (received : List firehose.PutRecordBatchInput)
    (ex : Extracted) :
    (dispatch (recordingHandler respond blockName countName) received ex).effects.firehoseState =
      received ++ requestsFor (recordingHandler respond blockName countName) ex := by
  unfold dispatch requestsFor
  by_cases hb : ex.blockRecords = [] <;> by_cases hc : ex.countRecords = [] <;>
    simp [hb, hc, putRecordBatch_firehoseState, recordingClient, recordingHandler]

/-- C6: on every event of present records, the delivery requests `Do` issues are exactly one
request with the block channel name and the whole block batch if the block batch is
non-empty, then one request with the count channel name and the whole count batch if the
count batch is non-empty, and nothing else; a client that keeps what it receives has
received exactly these. For the empty event `Do` returns no outcome and issues no request.
On any event at all, the requests of `Do` are these for the batches `extractRecords`
returns, and there is none when it panics. -/
theorem Do_delivery_requests {σ : Type} (lib : Lib) (handler : Handler σ) (s : σ)
    (rs : List Record) :
    ∃ ex out, extractRecords lib (eventOf rs) = .ok ex ∧
      Do lib handler s (eventOf rs) = .ok out ∧
      out.effects.calls =
        (if ex.blockRecords ≠ [] then
            [{ DeliveryStreamName := handler.blockDeliveryStreamName
               Records := ex.blockRecords }]
          else []) ++
        (if ex.countRecords ≠ [] then
            [{ DeliveryStreamName := handler.countDeliveryStreamName
               Records := ex.countRecords }]
          else []) ∧
      (∀ (respond : firehose.PutRecordBatchInput →
            Except GoError firehose.PutRecordBatchOutput)
          (blockName countName : Option String)
          (received : List firehose.PutRecordBatchInput),
        ∃ recorded, Do lib (recordingHandler respond blockName countName) received (eventOf rs) =
            .ok recorded ∧
          recorded.effects.firehoseState =
            received ++
              ((if ex.blockRecords ≠ [] then
                  [{ DeliveryStreamName := blockName, Records := ex.blockRecords }]
                else []) ++
              (if ex.countRecords ≠ [] then
                  [{ DeliveryStreamName := countName, Records := ex.countRecords }]
                else []))) ∧
      (∃ empty, Do lib handler s (some { Records := [] }) = .ok empty ∧
        empty.event.Records = [] ∧ empty.effects.calls = []) ∧
      (∀ ev : Option Event,
        (Do lib handler s ev).map (fun out => out.effects.calls) =
          (extractRecords lib ev).map (fun returned =>
            (if returned.blockRecords ≠ [] then
                [{ DeliveryStreamName := handler.blockDeliveryStreamName
                   Records := returned.blockRecords }]
              else []) ++
            (if returned.countRecords ≠ [] then
                [{ DeliveryStreamName := handler.countDeliveryStreamName
                   Records := returned.countRecords }]
              else []))) := by
  obtain ⟨ex, hex, _, _, _⟩ := extractRecords_present lib rs
  refine ⟨ex, _, hex, Do_of_extractRecords lib handler s _ ex hex,
    dispatch_calls handler s ex, ?_, ⟨_, rfl, rfl, rfl⟩, ?_⟩
  · intro respond blockName countName received
    exact ⟨_, Do_of_extractRecords lib _ received _ ex hex,
      dispatch_recorded respond blockName countName received ex⟩
  · intro ev
    cases h : extractRecords lib ev with
    | error p => simp [Do, h, Except.map]
    | ok returned =>
      rw [Do_of_extractRecords lib handler s ev returned h]
      simp only [Except.map]
      rw [dispatch_calls]
      rfl

/-- C7: on every event of present records, the event `Do` returns carries exactly the
outcome sequence of `extractRecords`, whatever the delivery client answers: two invocations
on the same event return the same event, whichever their clients, channel names and client
states are. On any event at all, two invocations end alike: with the same returned event,
or with the same panic. -/
theorem Do_event_independent_of_delivery {σ : Type} (lib : Lib) (handler : Handler σ) (s : σ)
    (rs : List Record) :
    ∃ ex out, extractRecords lib (eventOf rs) = .ok ex ∧
      Do lib handler s (eventOf rs) = .ok out ∧
      out.event = { Records := ex.records } ∧
      out.event.Records =
        rs.map (fun r => some { RecordID := r.RecordID, Result := "Ok", Data := r.Data }) ∧
      (∀ (τ : Type) (other : Handler τ) (t : τ),
        ∃ out', Do lib other t (eventOf rs) = .ok out' ∧ out'.event = out.event) ∧
      (∀ (ev : Option Event) (τ : Type) (other : Handler τ) (t : τ),
        (Do lib other t ev).map (fun result => result.event) =
          (Do lib handler s ev).map (fun result => result.event)) := by
  obtain ⟨ex, hex, hr, _, _⟩ := extractRecords_present lib rs
  refine ⟨ex, _, hex, Do_of_extractRecords lib handler s _ ex hex, rfl, hr, ?_, ?_⟩
  · intro τ other t
    exact ⟨_, Do_of_extractRecords lib other t _ ex hex, rfl⟩
  · intro ev τ other t
    cases h : extractRecords lib ev with
    | error p => simp [Do, h, Except.map]
    | ok returned =>
      rw [Do_of_extractRecords lib handler s ev returned h,
        Do_of_extractRecords lib other t ev returned h]
      rfl

/-- C8: when the block batch and the count batch that `extractRecords` returns on an event
are both non-empty, `Do` issues the block request and then the count request, each once, whatever
the client answers to either: the request made to the count channel does not depend on the
outcome of the block delivery, and the block request is neither withdrawn nor repeated
after the count delivery. -/
theorem Do_count_delivery_independent {σ : Type} (lib : Lib) (handler : Handler σ) (s : σ)
    (ev : Option Event) (ex : Extracted) (hex : extractRecords lib ev = .ok ex)
    (hblock : ex.blockRecords ≠ []) (hcount : ex.countRecords ≠ []) :
    (∃ out, Do lib handler s ev = .ok out ∧
      out.effects.calls =
        [{ DeliveryStreamName := handler.blockDeliveryStreamName
           Records := ex.blockRecords },
         { DeliveryStreamName := handler.countDeliveryStreamName
           Records := ex.countRecords }]) ∧
      (∀ (respond : firehose.PutRecordBatchInput →
            Except GoError firehose.PutRecordBatchOutput)
          (received : List firehose.PutRecordBatchInput),
        ∃ recorded, Do lib (recordingHandler respond handler.blockDeliveryStreamName
            handler.countDeliveryStreamName) received ev = .ok recorded ∧
          recorded.effects.firehoseState =
            received ++
              [{ DeliveryStreamName := handler.blockDeliveryStreamName
                 Records := ex.blockRecords },
               { DeliveryStreamName := handler.countDeliveryStreamName
                 Records := ex.countRecords }]) := by
  constructor
  · refine ⟨_, Do_of_extractRecords lib handler s _ ex hex, ?_⟩
    rw [dispatch_calls]
    simp [requestsFor, hblock, hcount]
  · intro respond received
    refine ⟨_, Do_of_extractRecords lib _ received _ ex hex, ?_⟩
    rw [dispatch_recorded]
    simp [requestsFor, hblock, hcount, recordingHandler]

/-- The two-channel scenario: on the event holding a block record and a count record, a
client failing every request and a client accepting every request are sent the same two
requests, the block batch first and the count batch second. -/
theorem Do_count_delivery_scenario :
    ∃ ex failed accepted,
      extractRecords goLib (some { Records := [some blockRecord, some countRecord] }) =
        .ok ex ∧
      ex.blockRecords = [{ Data := stringBytes blockRecord.Data }] ∧
      ex.countRecords = [{ Data := stringBytes countRecord.Data }] ∧
      Do goLib (NewHandler failingClient (fun name => name)) 0
          (some { Records := [some blockRecord, some countRecord] }) = .ok failed ∧
      Do goLib (NewHandler acceptingClient (fun name => name)) 0
          (some { Records := [some blockRecord, some countRecord] }) = .ok accepted ∧
      failed.effects.calls =
        [{ DeliveryStreamName := some "BLOCK_DELIVERY_STREAM_NAME"
           Records := [{ Data := stringBytes blockRecord.Data }] },
         { DeliveryStreamName := some "COUNT_DELIVERY_STREAM_NAME"
           Records := [{ Data := stringBytes countRecord.Data }] }] ∧
      accepted.effects.calls = failed.effects.calls ∧
      failed.effects.logs.length = 2 ∧ accepted.effects.logs.length = 0 := by
  have hex : extractRecords goLib (eventOf [blockRecord, countRecord]) =
      .ok { records := [some (outcome blockRecord), some (outcome countRecord)]
            blockRecords := [{ Data := stringBytes blockRecord.Data }]
            countRecords := [{ Data := stringBytes countRecord.Data }]
            logs := [] } := by rfl
  obtain ⟨failed, hf, hfc⟩ :=
    (Do_count_delivery_independent goLib (NewHandler failingClient (fun name => name)) 0
      (eventOf [blockRecord, countRecord]) _ hex (by simp) (by simp)).1
  obtain ⟨accepted, ha, hac⟩ :=
    (Do_count_delivery_independent goLib (NewHandler acceptingClient (fun name => name)) 0
      (eventOf [blockRecord, countRecord]) _ hex (by simp) (by simp)).1
  have hf' := hf.symm.trans (Do_of_extractRecords goLib _ 0 _ _ hex)
  have ha' := ha.symm.trans (Do_of_extractRecords goLib _ 0 _ _ hex)
  cases hf'
  cases ha'
  exact ⟨_, _, _, hex, rfl, rfl, hf, ha, hfc, by rw [hfc, hac]; rfl, by rfl, by rfl⟩

theorem filter_map_get_finRange {α β : Type} (l : List α) (p : α → Bool) (f : α → β) :
    (l.filter p).map f =
      ((List.finRange l.length).filter (fun i => p (l.get i))).map (fun i => f (l.get i)) := by
  conv_lhs => rw [← List.finRange_map_get l]
  rw [List.filter_map, List.map_map]
  rfl

/-- C9: on every event of present records, the block batch and the count batch list the
payload octets of two disjoint sets of input positions, each in increasing position and
without repetition; a position is in the block batch exactly when its record parses with
action "BLOCK", whatever its rules, and in the count batch exactly when its record parses
with another action and some rule; hence the two batches together are no longer than the
input. -/
theorem batches_from_disjoint_positions (lib : Lib) (rs : List Record) :
    ∃ ex, extractRecords lib (eventOf rs) = .ok ex ∧
      ∃ bs cs : List (Fin rs.length),
        List.Pairwise (fun i j => i < j) bs ∧ List.Pairwise (fun i j => i < j) cs ∧
        List.Disjoint bs cs ∧
        ex.blockRecords = bs.map (fun i => { Data := stringBytes (rs.get i).Data }) ∧
        ex.countRecords = cs.map (fun i => { Data := stringBytes (rs.get i).Data }) ∧
        (∀ i, i ∈ bs ↔
          ∃ decodedData data, lib.DecodeString (rs.get i).Data = .ok decodedData ∧
            lib.Unmarshal decodedData = .ok data ∧ data.Action = "BLOCK") ∧
        (∀ i, i ∈ cs ↔
          ∃ decodedData data, lib.DecodeString (rs.get i).Data = .ok decodedData ∧
            lib.Unmarshal decodedData = .ok data ∧ data.Action ≠ "BLOCK" ∧
            data.NonTerminatingMatchingRules.length ≠ 0) ∧
        ex.blockRecords.length + ex.countRecords.length ≤ rs.length := by
  obtain ⟨ex, hex, _, hb, hc⟩ := extractRecords_present lib rs
  refine ⟨ex, hex, ?_⟩
  let bs := (List.finRange rs.length).filter
    (fun i => decide (classify lib (rs.get i) = some .block))
  let cs := (List.finRange rs.length).filter
    (fun i => decide (classify lib (rs.get i) = some .count))
  have hbs : List.Pairwise (fun i j => i < j) bs :=
    (List.pairwise_lt_finRange _).sublist (List.filter_sublist _)
  have hcs : List.Pairwise (fun i j => i < j) cs :=
    (List.pairwise_lt_finRange _).sublist (List.filter_sublist _)
  have hmb : ∀ i, i ∈ bs ↔ classify lib (rs.get i) = some .block := by
    intro i
    simp [bs, List.mem_filter, List.mem_finRange]
  have hmc : ∀ i, i ∈ cs ↔ classify lib (rs.get i) = some .count := by
    intro i
    simp [cs, List.mem_filter, List.mem_finRange]
  have hdis : List.Disjoint bs cs := by
    intro i hi hj
    rw [hmb] at hi
    rw [hmc, hi] at hj
    cases hj
  have hblock : ex.blockRecords =
      bs.map (fun i => { Data := stringBytes (rs.get i).Data }) := by
    rw [hb]
    exact filter_map_get_finRange rs _ _
  have hcount : ex.countRecords =
      cs.map (fun i => { Data := stringBytes (rs.get i).Data }) := by
    rw [hc]
    exact filter_map_get_finRange rs _ _
  refine ⟨bs, cs, hbs, hcs, hdis, hblock, hcount, ?_, ?_, ?_⟩
  · intro i
    rw [hmb, classify_eq_block_iff]
  · intro i
    rw [hmc, classify_eq_count_iff]
  · rw [hblock, hcount, List.length_map, List.length_map, ← List.length_append]
    have hnd : (bs ++ cs).Nodup := by
      rw [List.nodup_append]
      exact ⟨hbs.imp (fun h => ne_of_lt h), hcs.imp (fun h => ne_of_lt h), hdis⟩
    have := hnd.length_le_card
    simpa using this

/-! ## Completion of `Do` -/

/-- The counterexample to C10 as stated: an event the invocation JSON can produce, the
record "1" followed by a `null` entry, makes `Do` panic, so no event is returned although
the first entry is a good record; so do the event of a single `null` entry and the `null`
event. -/
theorem Do_panics_on_nil_entry :
    Do goLib (NewHandler acceptingClient (fun name => name)) 0
        (some { Records := [some blockRecord, none] }) = .error .nilDereference ∧
      (¬ ∃ out, Do goLib (NewHandler acceptingClient (fun name => name)) 0
        (some { Records := [some blockRecord, none] }) = .ok out) ∧
      Do goLib (NewHandler acceptingClient (fun name => name)) 0
        (some { Records := [none] }) = .error .nilDereference ∧
      Do goLib (NewHandler acceptingClient (fun name => name)) 0 none =
        .error .nilDereference := by
  have h : Do goLib (NewHandler acceptingClient (fun name => name)) 0
      (some { Records := [some blockRecord, none] }) = .error .nilDereference := by rfl
  refine ⟨h, ?_, by rfl, by rfl⟩
  rintro ⟨out, hout⟩
  rw [h] at hout
  cases hout

/-- C10, amended: for every event that is not `nil` and whose entries are all present,
whatever their identifiers and payloads, for every behaviour of the library on the payloads
and every answer, success or error, of the delivery client, `Do` returns an event: it has
one outcome per input record, each with result "Ok" and the identifier and payload of its
record, so that no payload and no delivery answer makes the invocation fail. -/
theorem Do_returns_on_present_entries {σ : Type} (lib : Lib) (handler : Handler σ) (s : σ)
    (ev : Event) (hpresent : ∀ r ∈ ev.Records, r ≠ none) :
    ∃ out, Do lib handler s (some ev) = .ok out ∧
      out.event.Records.length = ev.Records.length ∧
      out.event.Records.map (Option.map (fun o => o.Result)) =
        List.replicate ev.Records.length (some "Ok") ∧
      out.event.Records.map (Option.map (fun o => o.RecordID)) =
        ev.Records.map (Option.map (fun r => r.RecordID)) ∧
      out.event.Records.map (Option.map (fun o => o.Data)) =
        ev.Records.map (Option.map (fun r => r.Data)) := by
  obtain ⟨rs, hrs⟩ := entries_present ev.Records hpresent
  obtain ⟨ex, hex, hr, _, _⟩ := extractRecords_present lib rs
  have hev : some ev = eventOf rs := by
    cases ev
    simp only [eventOf] at *
    rw [hrs]
  rw [hev]
  refine ⟨_, Do_of_extractRecords lib handler s _ ex hex, ?_, ?_, ?_, ?_⟩
  · show ex.records.length = _
    rw [hr, hrs]
    simp
  · show ex.records.map _ = _
    rw [hr, hrs, List.eq_replicate_iff]
    simp [outcome]
  · show ex.records.map _ = _
    rw [hr, hrs]
    simp [outcome]
  · show ex.records.map _ = _
    rw [hr, hrs]
    simp [outcome]

/-- The completion scenario: on the event of a record that does not decode, a record that
does not parse and a block record, with a client failing every request, `Do` returns three
outcomes with result "Ok". -/
theorem Do_returns_scenario :
    (∀ r ∈ [some invalidRecord, some malformedRecord, some blockRecord], r ≠ none) ∧
      ∃ out, Do goLib (NewHandler failingClient (fun name => name)) 0
          (some { Records := [some invalidRecord, some malformedRecord, some blockRecord] }) =
            .ok out ∧
        out.event.Records.length = 3 ∧
        out.event.Records.map (Option.map (fun o => o.Result)) =
          [some "Ok", some "Ok", some "Ok"] ∧
        out.event.Records.map (Option.map (fun o => o.RecordID)) =
          [some "3", some "5", some "1"] := by
  have hp : ∀ r ∈ [some invalidRecord, some malformedRecord, some blockRecord], r ≠ none := by
    intro r hr
    simp only [List.mem_cons, List.mem_singleton, List.not_mem_nil, or_false] at hr
    rcases hr with h | h | h <;> simp [h]
  obtain ⟨out, hout, hlen, hres, hid, _⟩ :=
    Do_returns_on_present_entries goLib (NewHandler failingClient (fun name => name)) 0
      { Records := [some invalidRecord, some malformedRecord, some blockRecord] } hp
  exact ⟨hp, out, hout, hlen, hres, hid⟩

end lambda
